import Mathlib

/-!
Shallow embedding of the decision core of the rocketry/powerbase scheduler:
the condition combinator engine (`rocketry/core/condition/base.py`) and the
temporal period algebra (`powerbase/core/time/base.py`).

Instants are modelled as integers counted in units of the minimum resolution
(`pd.Timestamp.resolution` / `datetime.datetime.resolution`), so the
resolution step is `1`.  Pandas `Interval` objects carry their closedness
flags; `pd.Interval(l, r)` without a `closed` argument defaults to
`closed='right'` (left-open, right-closed).
-/

namespace Rocketry

/-! ## Condition tree (`rocketry/core/condition/base.py`) -/

/-- The condition-tree datatype: leaf predicates (identified by an id whose
truth value the evaluation context supplies), the composites `All`/`Any`
holding their `subconditions` list, negation `Not`, and the two constants. -/
inductive Cond where
  | leaf (id : Nat) : Cond
  | all (subs : List Cond) : Cond
  | anyC (subs : List Cond) : Cond
  | notC (c : Cond) : Cond
  | alwaysTrue : Cond
  | alwaysFalse : Cond

mutual

/-- The method `observe(**kwargs)`: evaluate a condition against a context assigning a
boolean to each leaf id.  Returns the boolean outcome together with the trace
of leaf ids whose state function was invoked, in invocation order (the
observable side-effect order of the Python code). -/
def observe (ctx : Nat → Bool) : Cond → Bool × List Nat
  | .leaf i => (ctx i, [i])
  | .all subs => observeAll ctx subs
  | .anyC subs => observeAny ctx subs
  | .notC c =>
    let r := observe ctx c
    (!r.1, r.2)
  | .alwaysTrue => (true, [])
  | .alwaysFalse => (false, [])

/-- The loop of `All.observe`: `for subcond in self.subconditions: if not
subcond.observe(**kwargs): return False` then `return True`.  A child after
the first false one is never evaluated, so its leaves never enter the trace. -/
def observeAll (ctx : Nat → Bool) : List Cond → Bool × List Nat
  | [] => (true, [])
  | c :: rest =>
    let r := observe ctx c
    if r.1 then
      let r2 := observeAll ctx rest
      (r2.1, r.2 ++ r2.2)
    else
      (false, r.2)

/-- The loop of `Any.observe`: `for subcond in self.subconditions: if
subcond.observe(**kwargs): return True` then `return False`. -/
def observeAny (ctx : Nat → Bool) : List Cond → Bool × List Nat
  | [] => (false, [])
  | c :: rest =>
    let r := observe ctx c
    if r.1 then
      (true, r.2)
    else
      let r2 := observeAny ctx rest
      (r2.1, r.2 ++ r2.2)

end

/-- The flattening loop of `All.__init__`: a child that is itself an `All`
contributes its `subconditions` directly, any other child is appended as is. -/
def allArgsFlat : List Cond → List Cond
  | [] => []
  | (.all subs) :: rest => subs ++ allArgsFlat rest
  | c :: rest => c :: allArgsFlat rest

/-- The flattening loop of `Any.__init__` (absorbs `Any` children only). -/
def anyArgsFlat : List Cond → List Cond
  | [] => []
  | (.anyC subs) :: rest => subs ++ anyArgsFlat rest
  | c :: rest => c :: anyArgsFlat rest

/-- Constructor `All(*conditions)`: construction flattens same-kind children. -/
def mkAll (conds : List Cond) : Cond := .all (allArgsFlat conds)

/-- Constructor `Any(*conditions)`: construction flattens same-kind children. -/
def mkAny (conds : List Cond) : Cond := .anyC (anyArgsFlat conds)

/-- The operator `__invert__` (`~`): on a `Not` node it returns the stored child
("inverse of inverse is the actual condition"); on every other condition it
builds `Not(self)`. -/
def invert : Cond → Cond
  | .notC c => c
  | c => .notC c

/-- Whether a condition is a `Not` node. -/
def isNotNode : Cond → Bool
  | .notC _ => true
  | _ => false

/-- Whether a condition is an `All` node. -/
def isAllNode : Cond → Bool
  | .all _ => true
  | _ => false

mutual

/-- Equality semantics (`__eq__`) of the Python classes: `_ConditionContainer.__eq__`
compares classes and then the `subconditions` lists, `Not.__eq__` compares
classes and the stored child, and `BaseCondition.__eq__` compares classes
only (two leaves of the same class are equal regardless of content). -/
def condEq : Cond → Cond → Bool
  | .leaf _, .leaf _ => true
  | .all as, .all bs => condListEq as bs
  | .anyC as, .anyC bs => condListEq as bs
  | .notC a, .notC b => condEq a b
  | .alwaysTrue, .alwaysTrue => true
  | .alwaysFalse, .alwaysFalse => true
  | _, _ => false

/-- Elementwise list equality for `condEq`. -/
def condListEq : List Cond → List Cond → Bool
  | [], [] => true
  | a :: as, b :: bs => condEq a b && condListEq as bs
  | _, _ => false

end

/-- A condition node has no directly nested same-kind `All` wrapper. -/
def noNestedSameKindAll : Cond → Bool
  | .all subs => subs.all (fun s => !(isAllNode s))
  | _ => true

/-! ## Time periods (`powerbase/core/time/base.py`) -/

/-- An instant, counted in units of the minimum timestamp resolution. -/
abbrev Instant := Int

/-- The minimum resolution step (`pd.Timestamp.resolution`,
`datetime.datetime.resolution`): one unit. -/
def resolution : Int := 1

/-- A pandas `Interval` value: endpoints plus the closedness of each end. -/
structure PInterval where
  left : Instant
  right : Instant
  closedLeft : Bool
  closedRight : Bool
deriving DecidableEq

/-- The constructor `pd.Interval(l, r)` with no `closed` argument: pandas
defaults to `closed='right'`, i.e. left-open, right-closed. -/
def mkIntervalDefault (l r : Instant) : PInterval := ⟨l, r, false, true⟩

/-- The constructor `pd.Interval(l, r, closed="both")`. -/
def mkIntervalBoth (l r : Instant) : PInterval := ⟨l, r, true, true⟩

/-- Membership test of pandas `Interval.__contains__`: each endpoint bound is
strict exactly when that end is open. -/
def containsB (iv : PInterval) (p : Instant) : Bool :=
  (if iv.closedLeft then iv.left ≤ p else iv.left < p) &&
  (if iv.closedRight then p ≤ iv.right else p < iv.right)

/-- Overlap test of pandas `Interval.overlaps`: the comparison of one
interval's left endpoint against the other's right endpoint admits equality
only when both touching ends are closed. -/
def overlapsB (a b : PInterval) : Bool :=
  (if a.closedLeft && b.closedRight then a.left ≤ b.right else a.left < b.right) &&
  (if b.closedLeft && a.closedRight then b.left ≤ a.right else b.left < a.right)

/-- Python runtime errors signalled by the modelled code paths. -/
inductive PyErr where
  | attrErrorNoSuchAttribute : PyErr
  | attrErrorMissingReference : PyErr
  | typeError : PyErr
  | typeErrorNotCallable : PyErr
  | valueError : PyErr
deriving DecidableEq

/-- Python `abs` on a signed duration. -/
def pyAbs (n : Int) : Int := n.natAbs

/-- The roll capabilities a concrete period exposes to the shared
`TimePeriod.next`/`TimePeriod.prev` implementations. -/
structure PeriodOps where
  rollforward : Instant → PInterval
  rollback : Instant → PInterval

/-- Shared `TimePeriod.next(dt)`: compute `rollforward(dt)`; if `dt` lies in
the returned interval the source evaluates `self.rollforward(dt.right +
self.resolution)` — but `dt` is the query instant (a `Timestamp`), which has
no attribute `right`, so that branch raises `AttributeError`. -/
def periodNext (p : PeriodOps) (dt : Instant) : Except PyErr PInterval :=
  let interv := p.rollforward dt
  if containsB interv dt then .error .attrErrorNoSuchAttribute
  else .ok interv

/-- Shared `TimePeriod.prev(dt)`: mirror of `periodNext`; the re-roll branch
evaluates `dt.left - self.resolution` on the query instant `dt` and raises
`AttributeError`. -/
def periodPrev (p : PeriodOps) (dt : Instant) : Except PyErr PInterval :=
  let interv := p.rollback dt
  if containsB interv dt then .error .attrErrorNoSuchAttribute
  else .ok interv

/-- State of a constructed `TimeDelta`: the configured spans (the
constructor stores their absolute values). -/
structure TimeDeltaP where
  past : Int
  future : Int
deriving DecidableEq

/-- Method `TimeDelta.rollback(dt)`: the default-closed pandas interval from
`dt - abs(self.past)` to `dt`. -/
def timeDeltaRollback (d : TimeDeltaP) (dt : Instant) : PInterval :=
  mkIntervalDefault (dt - pyAbs d.past) dt

/-- Method `TimeDelta.rollforward(dt)`: the default-closed pandas interval
from `dt` to `dt + abs(self.future)`. -/
def timeDeltaRollforward (d : TimeDeltaP) (dt : Instant) : PInterval :=
  mkIntervalDefault dt (dt + pyAbs d.future)

/-- The roll capabilities of a `TimeDelta`. -/
def timeDeltaOps (d : TimeDeltaP) : PeriodOps :=
  ⟨timeDeltaRollforward d, timeDeltaRollback d⟩

/-- Method `TimeDelta.__contains__(dt)`: without an externally supplied
`reference` attribute it raises `AttributeError` ("TimeDelta requires
reference point to compare whether a datetime is in the period"); with one,
it tests `reference - abs(past) <= dt <= reference + abs(future)`. -/
def timeDeltaContains (d : TimeDeltaP) (reference : Option Instant) (dt : Instant) :
    Except PyErr Bool :=
  match reference with
  | none => .error .attrErrorMissingReference
  | some ref => .ok (decide (ref - pyAbs d.past ≤ dt ∧ dt ≤ ref + pyAbs d.future))

/-- A pandas `Timedelta` value: either an actual signed duration or the
not-a-time value `NaT`. -/
inductive TD where
  | notATime : TD
  | dur (n : Int) : TD
deriving DecidableEq

/-- Python `abs` on a `Timedelta`; `abs(NaT)` is `NaT`. -/
def TD.abs : TD → TD
  | .notATime => .notATime
  | .dur n => .dur (pyAbs n)

/-- Test `pd.isna` on a `Timedelta`. -/
def TD.isna : TD → Bool
  | .notATime => true
  | .dur _ => false

/-- Constructor `TimeDelta.__init__(past=None, future=None, ...)`: absent
spans default to `0`; both spans are stored as absolute values.  Both
not-a-time guards test `pd.isna(self.past)`; the first executes
`raise future("TimeDelta past duration cannot be 'not a time'")`, which
applies the future duration value as if it were an exception constructor
(a `TypeError`, since a `Timedelta` is not callable) instead of raising the
declared error; the second guard (`raise ValueError` for the future span)
re-tests `self.past` and is unreachable. -/
def timeDeltaInit (past future : Option TD) : Except PyErr (TD × TD) :=
  let past := past.getD (.dur 0)
  let future := future.getD (.dur 0)
  let p := past.abs
  let f := future.abs
  if p.isna then .error .typeErrorNotCallable
  else if p.isna then .error .valueError
  else .ok (p, f)

/-- State of a `TimeInterval` subclass: the abstract anchor operations a
concrete fixed interval implements. -/
structure TimeIntervalP where
  rollstart : Instant → Instant
  rollend : Instant → Instant
  next_start : Instant → Instant
  next_end : Instant → Instant
  prev_start : Instant → Instant
  prev_end : Instant → Instant

/-- Method `TimeInterval.rollforward(dt)`: the interval from `rollstart(dt)`
to `next_end(dt)`, built with `closed="both"`. -/
def timeIntervalRollforward (ti : TimeIntervalP) (dt : Instant) : PInterval :=
  mkIntervalBoth (ti.rollstart dt) (ti.next_end dt)

/-- Method `TimeInterval.rollback(dt)`: the interval from `prev_start(dt)` to
`rollend(dt)`, built with `closed="both"`. -/
def timeIntervalRollback (ti : TimeIntervalP) (dt : Instant) : PInterval :=
  mkIntervalBoth (ti.prev_start dt) (ti.rollend dt)

/-- The roll capabilities of a `TimeInterval`. -/
def timeIntervalOps (ti : TimeIntervalP) : PeriodOps :=
  ⟨timeIntervalRollforward ti, timeIntervalRollback ti⟩

/-- State of a `TimeCycle` subclass: cycle length multiplier `n`, the unit
`offset`, the configured start element, and the abstract element extractor
and replace rule. -/
structure TimeCycleP where
  offset : Int
  start : Int
  n : Int
  getTimeElement : Instant → Int
  replace : Instant → Instant

/-- Method `TimeCycle.rollforward(dt)`: candidate end `dt + (n-1)*offset`,
advanced one more unit when its time element reached the cycle start, then
normalized with `replace`; the result is the default-closed pandas interval
from `dt` to the normalized end minus one resolution unit. -/
def timeCycleRollforward (c : TimeCycleP) (dt : Instant) : PInterval :=
  let dtEnd := dt + (c.n - 1) * c.offset
  let dtEnd := if c.start ≤ c.getTimeElement dtEnd then dtEnd + c.offset else dtEnd
  mkIntervalDefault dt (c.replace dtEnd - resolution)

/-- Method `TimeCycle.rollback(dt)`: the structural mirror of
`timeCycleRollforward`. -/
def timeCycleRollback (c : TimeCycleP) (dt : Instant) : PInterval :=
  let dtStart := dt - (c.n - 1) * c.offset
  let dtStart := if c.start ≤ c.getTimeElement dtStart then dtStart else dtStart - c.offset
  mkIntervalDefault (c.replace dtStart) dt

/-- Derived membership `TimePeriod.__contains__` for a cycle: roll forward
from the instant and test membership in the returned pandas interval. -/
def timeCycleContains (c : TimeCycleP) (dt : Instant) : Bool :=
  containsB (timeCycleRollforward c dt) dt

/-- All unordered pairs of a list, as produced by
`itertools.combinations(times, 2)`. -/
def pairCombinations : List PInterval → List (PInterval × PInterval)
  | [] => []
  | x :: xs => xs.map (fun y => (x, y)) ++ pairCombinations xs

/-- Helper `all_overlap(times)`: every pair of candidate intervals overlaps. -/
def all_overlap (times : List PInterval) : Bool :=
  (pairCombinations times).all (fun p => overlapsB p.1 p.2)

/-- Python `max` over a list of instants (`max` raises on an empty list; the
empty case below is never reached from the guarded call sites). -/
def pyMax : List Int → Int
  | [] => 0
  | x :: xs => xs.foldl max x

/-- Python `min` over a list of instants. -/
def pyMin : List Int → Int
  | [] => 0
  | x :: xs => xs.foldl min x

/-- Helper `get_overlapping(times)`: the default-closed pandas interval from
the maximum of the left endpoints to the minimum of the right endpoints. -/
def get_overlapping (times : List PInterval) : PInterval :=
  mkIntervalDefault (pyMax (times.map (·.left))) (pyMin (times.map (·.right)))

/-- Method `All.rollforward(dt)` of the period composite: roll every child
forward; if all candidate intervals pairwise overlap, return their
intersection via `get_overlapping`, otherwise recurse from one resolution
unit past the earliest right endpoint.  The source recursion has no
termination bound, so the embedding carries explicit fuel. -/
def allRollforward (periods : List (Instant → PInterval)) : Nat → Instant → Option PInterval
  | 0, _ => none
  | fuel + 1, dt =>
    let intervals := periods.map (fun p => p dt)
    if all_overlap intervals then some (get_overlapping intervals)
    else allRollforward periods fuel (pyMin (intervals.map (·.right)) + resolution)

/-- An argument passed to the period composite constructors: either a
`TimePeriod` instance or some other object. -/
inductive PArg where
  | period : PArg
  | notPeriod : PArg
deriving DecidableEq

/-- Constructor `All.__init__(*args)` of the period composite: raise
`TypeError` when any argument is not a `TimePeriod`; otherwise store the
argument tuple as is (an empty tuple is accepted). -/
def periodAllInit (args : List PArg) : Except PyErr (List PArg) :=
  if args.any (fun a => a == PArg.notPeriod) then .error .typeError
  else .ok args

/-- Constructor `Any.__init__(*args)` of the period composite: identical
validation to `periodAllInit`. -/
def periodAnyInit (args : List PArg) : Except PyErr (List PArg) :=
  if args.any (fun a => a == PArg.notPeriod) then .error .typeError
  else .ok args

/-- An argument passed to the condition composite constructors: either a
condition or some other object (the source never checks). -/
inductive CArg where
  | cond (c : Cond) : CArg
  | notCond (id : Nat) : CArg

/-- The flattening loop of the condition `All.__init__` over raw arguments:
an `All` condition contributes its subconditions, anything else — including
an object that is no condition at all — is appended unchecked. -/
def condAllInitArgs : List CArg → List CArg
  | [] => []
  | (.cond (.all subs)) :: rest => subs.map CArg.cond ++ condAllInitArgs rest
  | a :: rest => a :: condAllInitArgs rest

/-- The flattening loop of the condition `Any.__init__` over raw arguments. -/
def condAnyInitArgs : List CArg → List CArg
  | [] => []
  | (.cond (.anyC subs)) :: rest => subs.map CArg.cond ++ condAnyInitArgs rest
  | a :: rest => a :: condAnyInitArgs rest

/-- Constructor `All.__init__` of the condition composite: the source body
contains no raise statement, so construction always succeeds. -/
def condAllInit (args : List CArg) : Except PyErr (List CArg) :=
  .ok (condAllInitArgs args)

/-- Constructor `Any.__init__` of the condition composite. -/
def condAnyInit (args : List CArg) : Except PyErr (List CArg) :=
  .ok (condAnyInitArgs args)

/-- A context used by concrete witnesses: leaf `1` is true, all others
false. -/
def ctxOne : Nat → Bool := fun i => i == 1

/-- A degenerate `TimeInterval` whose every anchor operation is the
identity, used as a concrete witness instance. -/
def tiId : TimeIntervalP :=
  ⟨fun t => t, fun t => t, fun t => t, fun t => t, fun t => t, fun t => t⟩

/-- A constant child period used as a concrete witness instance. -/
def wfA : Instant → PInterval := fun _ => mkIntervalDefault 0 10

/-- Another constant child period used as a concrete witness instance. -/
def wfB : Instant → PInterval := fun _ => mkIntervalDefault 5 8

/-! ## Helper lemmas -/

theorem observeAll_first_false (ctx : Nat → Bool) (pre : List Cond) (c : Cond) (post : List Cond)
    (hpre : ∀ x ∈ pre, (observe ctx x).1 = true) (hc : (observe ctx c).1 = false) :
    observeAll ctx (pre ++ c :: post) =
      (false, (pre.map fun x => (observe ctx x).2).flatten ++ (observe ctx c).2) := by
  induction pre with
  | nil => simp [observeAll, hc]
  | cons x xs ih =>
    have hx : (observe ctx x).1 = true := hpre x (by simp)
    have ih2 := ih (fun y hy => hpre y (by simp [hy]))
    simp [observeAll, hx, ih2]

theorem observeAll_all_true (ctx : Nat → Bool) (subs : List Cond)
    (h : ∀ x ∈ subs, (observe ctx x).1 = true) :
    observeAll ctx subs = (true, (subs.map fun x => (observe ctx x).2).flatten) := by
  induction subs with
  | nil => simp [observeAll]
  | cons x xs ih =>
    have hx : (observe ctx x).1 = true := h x (by simp)
    have ih2 := ih (fun y hy => h y (by simp [hy]))
    simp [observeAll, hx, ih2]

theorem observeAny_first_true (ctx : Nat → Bool) (pre : List Cond) (c : Cond) (post : List Cond)
    (hpre : ∀ x ∈ pre, (observe ctx x).1 = false) (hc : (observe ctx c).1 = true) :
    observeAny ctx (pre ++ c :: post) =
      (true, (pre.map fun x => (observe ctx x).2).flatten ++ (observe ctx c).2) := by
  induction pre with
  | nil => simp [observeAny, hc]
  | cons x xs ih =>
    have hx : (observe ctx x).1 = false := hpre x (by simp)
    have ih2 := ih (fun y hy => hpre y (by simp [hy]))
    simp [observeAny, hx, ih2]

theorem observeAny_all_false (ctx : Nat → Bool) (subs : List Cond)
    (h : ∀ x ∈ subs, (observe ctx x).1 = false) :
    observeAny ctx subs = (false, (subs.map fun x => (observe ctx x).2).flatten) := by
  induction subs with
  | nil => simp [observeAny]
  | cons x xs ih =>
    have hx : (observe ctx x).1 = false := h x (by simp)
    have ih2 := ih (fun y hy => h y (by simp [hy]))
    simp [observeAny, hx, ih2]

theorem allArgsFlat_append (xs ys : List Cond) :
    allArgsFlat (xs ++ ys) = allArgsFlat xs ++ allArgsFlat ys := by
  induction xs with
  | nil => simp [allArgsFlat]
  | cons x rest ih => cases x <;> simp [allArgsFlat, ih]

theorem anyArgsFlat_append (xs ys : List Cond) :
    anyArgsFlat (xs ++ ys) = anyArgsFlat xs ++ anyArgsFlat ys := by
  induction xs with
  | nil => simp [anyArgsFlat]
  | cons x rest ih => cases x <;> simp [anyArgsFlat, ih]

theorem allArgsFlat_no_all (args : List Cond)
    (h : ∀ x ∈ args, noNestedSameKindAll x = true) :
    ∀ s ∈ allArgsFlat args, isAllNode s = false := by
  induction args with
  | nil => intro s hs; simp [allArgsFlat] at hs
  | cons x rest ih =>
    intro s hs
    have ih2 := ih (fun y hy => h y (by simp [hy])) s
    have hsplit : allArgsFlat (x :: rest) =
        (match x with | Cond.all subs => subs | c => [c]) ++ allArgsFlat rest := by
      cases x <;> rfl
    rw [hsplit] at hs
    rcases List.mem_append.mp hs with hmem | hmem
    · cases x with
      | all subs =>
        have hx := h (Cond.all subs) (by simp)
        simp only [noNestedSameKindAll, List.all_eq_true] at hx
        simpa using hx s hmem
      | leaf i => simp at hmem; subst hmem; rfl
      | anyC subs => simp at hmem; subst hmem; rfl
      | notC c => simp at hmem; subst hmem; rfl
      | alwaysTrue => simp at hmem; subst hmem; rfl
      | alwaysFalse => simp at hmem; subst hmem; rfl
    · exact ih2 hmem

theorem le_foldl_max (a : Int) (xs : List Int) : a ≤ xs.foldl max a := by
  induction xs generalizing a with
  | nil => exact le_refl a
  | cons y ys ih => exact le_trans (le_max_left a y) (ih (max a y))

theorem mem_le_foldl_max (x a : Int) (xs : List Int) (h : x ∈ xs) : x ≤ xs.foldl max a := by
  induction xs generalizing a with
  | nil => cases h
  | cons y ys ih =>
    rcases List.mem_cons.mp h with rfl | h2
    · exact le_trans (le_max_right a x) (le_foldl_max _ ys)
    · exact ih _ h2

theorem le_pyMax (x : Int) (xs : List Int) (h : x ∈ xs) : x ≤ pyMax xs := by
  cases xs with
  | nil => cases h
  | cons y ys =>
    rcases List.mem_cons.mp h with rfl | h2
    · exact le_foldl_max x ys
    · exact mem_le_foldl_max x y ys h2

theorem foldl_min_le (a : Int) (xs : List Int) : xs.foldl min a ≤ a := by
  induction xs generalizing a with
  | nil => exact le_refl a
  | cons y ys ih => exact le_trans (ih (min a y)) (min_le_left a y)

theorem foldl_min_le_mem (x a : Int) (xs : List Int) (h : x ∈ xs) : xs.foldl min a ≤ x := by
  induction xs generalizing a with
  | nil => cases h
  | cons y ys ih =>
    rcases List.mem_cons.mp h with rfl | h2
    · exact le_trans (foldl_min_le _ ys) (min_le_right a x)
    · exact ih _ h2

theorem pyMin_le (x : Int) (xs : List Int) (h : x ∈ xs) : pyMin xs ≤ x := by
  cases xs with
  | nil => cases h
  | cons y ys =>
    rcases List.mem_cons.mp h with rfl | h2
    · exact foldl_min_le x ys
    · exact foldl_min_le_mem x y ys h2

/-! ## Claim theorems -/

/-- C1: the claim says `next(t)`/`prev(t)` never return an interval
containing `t` and re-roll from one resolution unit past the far edge of the
current occurrence.  In the source the re-roll branch evaluates `dt.right`
(resp. `dt.left`) on the query instant, a `Timestamp` that has no such
attribute, so whenever `t` lies inside the rolled interval the call raises
`AttributeError` instead of re-rolling: so for any `TimeDelta` with a
nonzero past span, `prev` raises, and for any `TimeInterval` whose current
occurrence contains `t`, `next` raises.  When the guard branch is not taken,
the returned interval indeed does not contain `t`. -/
theorem next_prev_attribute_error (d : TimeDeltaP) (ti : TimeIntervalP) (dt : Instant)
    (hd : d.past ≠ 0) (hstart : ti.rollstart dt = dt) (hend : dt ≤ ti.next_end dt) :
    periodPrev (timeDeltaOps d) dt = .error .attrErrorNoSuchAttribute ∧
    periodNext (timeIntervalOps ti) dt = .error .attrErrorNoSuchAttribute ∧
    ∀ (p : PeriodOps) (t : Instant) (iv : PInterval),
      periodNext p t = .ok iv → containsB iv t = false := by
  refine ⟨?_, ?_, ?_⟩
  · simp [periodPrev, timeDeltaOps, timeDeltaRollback, mkIntervalDefault, containsB, pyAbs]
    exact hd
  · simp [periodNext, timeIntervalOps, timeIntervalRollforward, mkIntervalBoth, containsB,
      hstart, hend]
  · intro p t iv h
    simp only [periodNext] at h
    by_cases hc : containsB (p.rollforward t) t
    · simp [hc] at h
    · simp [hc] at h
      simpa [← h] using hc

/-- Witness for `next_prev_attribute_error` at the concrete delta with past
span 2 and the identity fixed interval, query instant 7. -/
theorem next_prev_attribute_error_witness :
    (⟨2, 0⟩ : TimeDeltaP).past ≠ 0 ∧ tiId.rollstart 7 = 7 ∧ (7 : Instant) ≤ tiId.next_end 7 ∧
    periodPrev (timeDeltaOps ⟨2, 0⟩) 7 = .error .attrErrorNoSuchAttribute :=
  ⟨by decide, rfl, by decide,
    (next_prev_attribute_error ⟨2, 0⟩ tiId 7 (by decide) rfl (by decide)).1⟩

/-- C2: the claim says every interval produced by a roll operation is closed
at both ends.  `TimeDelta.rollback(10)` with a past span of one unit builds
`pd.Interval(9, 10)` with the pandas default `closed='right'`: the left
endpoint 9 satisfies `left ≤ 9 ≤ right` yet is not contained; likewise the
query instant 10 is not contained in `TimeDelta.rollforward(10)` even though
that method is documented as "including currently ongoing". -/
theorem delta_rollback_left_endpoint_excluded :
    (timeDeltaRollback ⟨1, 0⟩ 10).left = 9 ∧
    (timeDeltaRollback ⟨1, 0⟩ 10).right = 10 ∧
    ((9 : Instant) ≤ 9 ∧ (9 : Instant) ≤ 10) ∧
    containsB (timeDeltaRollback ⟨1, 0⟩ 10) 9 = false ∧
    containsB (timeDeltaRollforward ⟨0, 1⟩ 10) 10 = false ∧
    containsB (timeIntervalRollforward tiId 10) 10 = true := by
  decide

/-- C3: the claim says cycle containment is total.  In the source,
`TimePeriod.__contains__` tests `dt in self.rollforward(dt)`, and
`TimeCycle.rollforward` builds its pandas interval with the default
`closed='right'`, whose left endpoint is the query instant itself — so the
membership test is false for every cycle configuration and every instant. -/
theorem cycle_contains_always_false (c : TimeCycleP) (dt : Instant) :
    timeCycleContains c dt = false := by
  simp [timeCycleContains, timeCycleRollforward, containsB, mkIntervalDefault]

/-- C4 counterexample: directly constructing `Not(Not(x))` yields a
doubly-wrapped node, not `x`: at `x = AlwaysTrue` the result is neither
structurally equal to `x` nor equal under the tree's own `__eq__`. -/
theorem not_not_construction_counterexample :
    Cond.notC (Cond.notC Cond.alwaysTrue) ≠ Cond.alwaysTrue ∧
    condEq (Cond.notC (Cond.notC Cond.alwaysTrue)) Cond.alwaysTrue = false ∧
    isNotNode (Cond.notC (Cond.notC Cond.alwaysTrue)) = true := by
  refine ⟨?_, rfl, rfl⟩
  intro h
  cases h

/-- C4 amended: double negation collapses through the inversion operator
`~`, not through the constructor: inverting a `Not` node returns its stored
child, hence `~~x = x` for every `x` that is not itself a `Not` node. -/
theorem invert_double_negation (x : Cond) :
    invert (Cond.notC x) = x ∧ (isNotNode x = false → invert (invert x) = x) := by
  constructor
  · rfl
  · intro h
    cases x <;> simp [invert, isNotNode] at h ⊢

/-- Witness for `invert_double_negation` at `x = AlwaysTrue`. -/
theorem invert_double_negation_witness :
    isNotNode Cond.alwaysTrue = false ∧
    invert (invert Cond.alwaysTrue) = Cond.alwaysTrue :=
  ⟨rfl, (invert_double_negation Cond.alwaysTrue).2 rfl⟩

/-- C5: `All.observe` evaluates children strictly in sequence order and
returns false at the first false child, whose successors are never
evaluated (their leaves are absent from the invocation trace); it returns
true only when every child observes true.  Dually, `Any.observe` returns
true at the first true child without evaluating later children, and false
only when all children observe false. -/
theorem observe_short_circuit (ctx : Nat → Bool) :
    (∀ pre c post, (∀ x ∈ pre, (observe ctx x).1 = true) → (observe ctx c).1 = false →
        observe ctx (Cond.all (pre ++ c :: post)) =
          (false, (pre.map fun x => (observe ctx x).2).flatten ++ (observe ctx c).2)) ∧
    (∀ subs, (∀ x ∈ subs, (observe ctx x).1 = true) →
        observe ctx (Cond.all subs) = (true, (subs.map fun x => (observe ctx x).2).flatten)) ∧
    (∀ pre c post, (∀ x ∈ pre, (observe ctx x).1 = false) → (observe ctx c).1 = true →
        observe ctx (Cond.anyC (pre ++ c :: post)) =
          (true, (pre.map fun x => (observe ctx x).2).flatten ++ (observe ctx c).2)) ∧
    (∀ subs, (∀ x ∈ subs, (observe ctx x).1 = false) →
        observe ctx (Cond.anyC subs) = (false, (subs.map fun x => (observe ctx x).2).flatten)) := by
  refine ⟨?_, ?_, ?_, ?_⟩
  · intro pre c post h1 h2
    exact observeAll_first_false ctx pre c post h1 h2
  · intro subs h
    exact observeAll_all_true ctx subs h
  · intro pre c post h1 h2
    exact observeAny_first_true ctx pre c post h1 h2
  · intro subs h
    exact observeAny_all_false ctx subs h

/-- Witness for `observe_short_circuit`: with leaf 1 true and leaves 0, 2
false, `All(leaf 1, leaf 0, leaf 2)` observes false and the trace stops at
leaf 0 — leaf 2 is never invoked. -/
theorem observe_short_circuit_witness :
    observe ctxOne (Cond.all ([Cond.leaf 1] ++ Cond.leaf 0 :: [Cond.leaf 2])) =
      (false, ([Cond.leaf 1].map fun x => (observe ctxOne x).2).flatten ++
        (observe ctxOne (Cond.leaf 0)).2) :=
  (observe_short_circuit ctxOne).1 [Cond.leaf 1] (Cond.leaf 0) [Cond.leaf 2]
    (by decide) (by decide)

/-- C6: construction-time flattening: `All(All(a,b),c)` and `All(a,b,c)`
produce structurally equal trees and identical observe results for every
context, and likewise for `Any`; when the arguments carry no directly nested
`All`, neither does the flattened result. -/
theorem flattening_idempotence (a b c : Cond) (ctx : Nat → Bool) :
    mkAll [mkAll [a, b], c] = mkAll [a, b, c] ∧
    observe ctx (mkAll [mkAll [a, b], c]) = observe ctx (mkAll [a, b, c]) ∧
    mkAny [mkAny [a, b], c] = mkAny [a, b, c] ∧
    observe ctx (mkAny [mkAny [a, b], c]) = observe ctx (mkAny [a, b, c]) ∧
    ((∀ x ∈ [a, b, c], noNestedSameKindAll x = true) →
      noNestedSameKindAll (mkAll [mkAll [a, b], c]) = true) := by
  have keyAll : allArgsFlat [Cond.all (allArgsFlat [a, b]), c] = allArgsFlat [a, b, c] := by
    rw [show ([a, b, c] : List Cond) = [a, b] ++ [c] from rfl, allArgsFlat_append]
    simp [allArgsFlat]
  have keyAny : anyArgsFlat [Cond.anyC (anyArgsFlat [a, b]), c] = anyArgsFlat [a, b, c] := by
    rw [show ([a, b, c] : List Cond) = [a, b] ++ [c] from rfl, anyArgsFlat_append]
    simp [anyArgsFlat]
  refine ⟨?_, ?_, ?_, ?_, ?_⟩
  · simp [mkAll, keyAll]
  · simp [mkAll, keyAll]
  · simp [mkAny, keyAny]
  · simp [mkAny, keyAny]
  · intro h
    have hflat := allArgsFlat_no_all [a, b, c] h
    rw [show mkAll [mkAll [a, b], c] = Cond.all (allArgsFlat [a, b, c]) by
      simp [mkAll, keyAll]]
    simp only [noNestedSameKindAll, List.all_eq_true]
    intro s hs
    simp [hflat s hs]

/-- Witness for `flattening_idempotence` at three `AlwaysTrue` leaves. -/
theorem flattening_idempotence_witness :
    (∀ x ∈ [Cond.alwaysTrue, Cond.alwaysTrue, Cond.alwaysTrue],
      noNestedSameKindAll x = true) ∧
    noNestedSameKindAll
      (mkAll [mkAll [Cond.alwaysTrue, Cond.alwaysTrue], Cond.alwaysTrue]) = true :=
  ⟨by decide,
    (flattening_idempotence Cond.alwaysTrue Cond.alwaysTrue Cond.alwaysTrue ctxOne).2.2.2.2
      (by decide)⟩

/-- C7: the period composite `All.rollforward` rolls every child forward
from the query instant; when all candidate intervals pairwise overlap the
result is the interval from the maximum of the left endpoints to the
minimum of the right endpoints (an intersection: its endpoints lie inside
every candidate's endpoint span); otherwise it recurses, re-seeded from one
resolution unit past the earliest right endpoint among the candidates. -/
theorem all_rollforward_merge (periods : List (Instant → PInterval)) (fuel : Nat)
    (dt : Instant) :
    (all_overlap (periods.map fun p => p dt) = true →
      allRollforward periods (fuel + 1) dt =
          some ⟨pyMax ((periods.map fun p => p dt).map (fun iv => iv.left)),
                pyMin ((periods.map fun p => p dt).map (fun iv => iv.right)), false, true⟩ ∧
        ∀ iv ∈ periods.map fun p => p dt,
          iv.left ≤ pyMax ((periods.map fun p => p dt).map (fun iv => iv.left)) ∧
          pyMin ((periods.map fun p => p dt).map (fun iv => iv.right)) ≤ iv.right) ∧
    (all_overlap (periods.map fun p => p dt) = false →
      allRollforward periods (fuel + 1) dt =
        allRollforward periods fuel
          (pyMin ((periods.map fun p => p dt).map (fun iv => iv.right)) + resolution)) := by
  constructor
  · intro hov
    constructor
    · simp [allRollforward, hov, get_overlapping, mkIntervalDefault]
    · intro iv hiv
      exact ⟨le_pyMax _ _ (List.mem_map_of_mem _ hiv),
        pyMin_le _ _ (List.mem_map_of_mem _ hiv)⟩
  · intro hov
    simp [allRollforward, hov]

/-- Witness for `all_rollforward_merge` on two constant child periods whose
candidates overlap: the intersection is the interval from 5 to 8. -/
theorem all_rollforward_merge_witness :
    all_overlap ([wfA, wfB].map fun p => p 0) = true ∧
    allRollforward [wfA, wfB] (0 + 1) 0 =
      some ⟨pyMax (([wfA, wfB].map fun p => p 0).map (fun iv => iv.left)),
            pyMin (([wfA, wfB].map fun p => p 0).map (fun iv => iv.right)), false, true⟩ :=
  ⟨by decide, ((all_rollforward_merge [wfA, wfB] 0 0).1 (by decide)).1⟩

/-- C8: `TimeDelta.__contains__` without an externally supplied reference
instant signals the missing-reference error; with a reference it holds
exactly on the span from `reference - past` to `reference + future`,
inclusive at both ends. -/
theorem delta_contains_reference (d : TimeDeltaP) (dt : Instant) :
    timeDeltaContains d none dt = .error .attrErrorMissingReference ∧
    ∀ ref, (timeDeltaContains d (some ref) dt = .ok true ↔
      ref - pyAbs d.past ≤ dt ∧ dt ≤ ref + pyAbs d.future) := by
  constructor
  · rfl
  · intro ref
    simp [timeDeltaContains]

/-- C9 counterexample: constructing the period composites with zero children
raises nothing (the empty tuple is stored), and the condition composite
accepts a non-condition argument without error. -/
theorem construction_zero_children_counterexample :
    periodAllInit [] = .ok [] ∧ periodAnyInit [] = .ok [] ∧
    condAllInit [] = .ok [] ∧
    condAllInit [CArg.notCond 0] = .ok [CArg.notCond 0] :=
  ⟨rfl, rfl, rfl, rfl⟩

/-- C9 amended: the period composites `All`/`Any` raise `TypeError` exactly
when some argument is not a `TimePeriod`, and otherwise store the argument
tuple — the empty tuple included; the condition composites `All`/`Any`
perform no construction-time validation at all: every argument list,
including the empty one and lists holding non-conditions, is accepted. -/
theorem construction_validation (args : List PArg) (cargs : List CArg) :
    (periodAllInit args = if PArg.notPeriod ∈ args then .error .typeError else .ok args) ∧
    (periodAnyInit args = if PArg.notPeriod ∈ args then .error .typeError else .ok args) ∧
    condAllInit cargs = .ok (condAllInitArgs cargs) ∧
    condAnyInit cargs = .ok (condAnyInitArgs cargs) := by
  refine ⟨?_, ?_, rfl, rfl⟩ <;>
    by_cases h : PArg.notPeriod ∈ args <;>
      simp [periodAllInit, periodAnyInit, h, List.any_eq_true]

/-- C10: both not-a-time guards of `TimeDelta.__init__` test the past span:
with a valid past and a not-a-time future, construction succeeds and stores
`NaT` as the future span; with a not-a-time past, the first guard executes
`raise future(...)`, applying the future duration value as if it were an
exception constructor — a `TypeError`, never the declared `ValueError`. -/
theorem timedelta_init_nat_guards (p f : TD) (hp : (TD.abs p).isna = false) :
    timeDeltaInit (some p) (some TD.notATime) = .ok (p.abs, TD.notATime) ∧
    timeDeltaInit (some TD.notATime) (some f) = .error .typeErrorNotCallable ∧
    timeDeltaInit (some TD.notATime) (some f) ≠ .error .valueError := by
  refine ⟨?_, rfl, by simp [timeDeltaInit, TD.abs, TD.isna]⟩
  have habs : TD.abs TD.notATime = TD.notATime := rfl
  simp [timeDeltaInit, hp, habs]

/-- Witness for `timedelta_init_nat_guards` at a past span of 3 units. -/
theorem timedelta_init_nat_guards_witness :
    (TD.abs (TD.dur 3)).isna = false ∧
    timeDeltaInit (some (TD.dur 3)) (some TD.notATime) = .ok (TD.abs (TD.dur 3), TD.notATime) :=
  ⟨rfl, (timedelta_init_nat_guards (TD.dur 3) (TD.dur 0) rfl).1⟩

end Rocketry
